import Mathlib

/-!
Shallow embedding of `src/async_operations.js` (the `parallelCalls` core:
RequestExecutor / RetryCoordinator / BatchScheduler), with theorems about its
specification.

Modelling conventions:
* A decoded JSON value is opaque: `Json` wraps a string tag, never inspected.
* The network environment is an oracle: for each URL and each attempt number
  (numbered from 1, as in the source), the oracle says what that attempt's
  `fetch` does — the response arrives before the timeout (with a status and a
  body whose JSON parse either succeeds or fails), the fetch rejects with a
  transport error, or the timeout fires first (the `AbortController` cancels
  the in-flight request and `fetch` rejects with the runtime's abort error,
  whose message the source does not control).
* JS promises / async-await become explicit `Except` values; `Promise.all`
  over a batch becomes `promiseAll`, which fails with the first (leftmost)
  failing element — in JS the surfaced rejection is the first in time, which
  the source does not control; no claim below depends on which one surfaces.
-/

namespace AsyncOps

/-- Opaque decoded JSON value (`response.json()` result). Never inspected. -/
structure Json where
  tag : String
deriving DecidableEq, Repr

/-- Failure taxonomy from the spec (§7): how one attempt can fail. -/
inductive FailKind where
  | timeout
  | httpStatus
  | decode
  | network
deriving DecidableEq, Repr

/-- A JS `Error` as seen inside `parallelCalls`: its classification plus the
`message` property. Only `message` survives the outer `catch`. -/
structure JsError where
  kind : FailKind
  message : String
deriving DecidableEq, Repr

instance {ε α : Type} [DecidableEq ε] [DecidableEq α] :
    DecidableEq (Except ε α) := fun a b =>
  match a, b with
  | .ok x, .ok y =>
    if h : x = y then .isTrue (by rw [h]) else .isFalse (by simp [h])
  | .ok _, .error _ => .isFalse (by simp)
  | .error _, .ok _ => .isFalse (by simp)
  | .error x, .error y =>
    if h : x = y then .isTrue (by rw [h]) else .isFalse (by simp [h])

/-- What the environment does for one single attempt of `fetch(url, signal)`
under the per-attempt timeout:
* `response status body`: the HTTP response arrives before the timeout fires;
  `status` is the HTTP status code and `body` is the outcome of parsing the
  body as JSON (`response.json()`);
* `networkError msg`: `fetch` rejects with a transport-level error before the
  timeout fires;
* `timesOut abortMsg`: the response has not arrived when the timer fires, the
  abort signal cancels the request, and `fetch` rejects with the runtime's
  abort error carrying `abortMsg` (a message chosen by the JS runtime, not by
  the source). -/
inductive AttemptEvent where
  | response (status : Nat) (body : Except String Json)
  | networkError (msg : String)
  | timesOut (abortMsg : String)
deriving DecidableEq, Repr

/-- Outcome of the body of one attempt of `fetchWithTimeout`, before the retry
logic (lines 142-148 of `src/async_operations.js`):
* `fetch` resolving and `!response.ok` throws `HTTP error! status: <code>`
  (caught by the `catch` block);
* `fetch` rejecting (abort or network) is caught by the `catch` block;
* `return response.json()` is returned WITHOUT `await`, so a JSON parse
  failure rejects the attempt's promise after control has already left the
  `try` block: the `catch` block never sees it. `success` and `decodeFailure`
  are therefore distinct from `caughtFailure`. -/
inductive AttemptResult where
  | success (v : Json)
  | decodeFailure (msg : String)
  | caughtFailure (kind : FailKind) (msg : String)
deriving DecidableEq, Repr

/-- Predicate `response.ok` as the platform defines it: status in the range 200-299. -/
def statusOk (status : Nat) : Bool :=
  decide (200 ≤ status) && decide (status < 300)

/-- One attempt of `fetchWithTimeout` without the retry logic, i.e. lines
139-148 plus the classification of what the `catch` block receives. -/
def attemptResult (e : AttemptEvent) : AttemptResult :=
  match e with
  | .timesOut abortMsg => .caughtFailure .timeout abortMsg
  | .networkError msg => .caughtFailure .network msg
  | .response status body =>
    if statusOk status then
      match body with
      | .ok v => .success v
      | .error msg => .decodeFailure msg
    else
      .caughtFailure .httpStatus ("HTTP error! status: " ++ toString status)

/-- Environment oracle for one URL: what attempt number `k` (numbered from 1)
does. -/
def UrlEnv : Type := Nat → AttemptEvent

/-- Environment oracle for the whole run. -/
def Env : Type := String → UrlEnv

/-- The recursive retry logic of `fetchWithTimeout` (lines 138-159), started
at attempt number `attempt`. Returns the settled outcome of the attempt chain
together with the number of attempts actually made from `attempt` on:
* a successful attempt settles the chain;
* a decode failure settles the chain immediately (the un-awaited
  `return response.json()` bypasses the `catch` block, so no retry);
* any failure seen by the `catch` block retries while `attempt < retries`,
  and is rethrown once `attempt < retries` fails. -/
def fetchFrom (env : UrlEnv) (retries : Nat) (attempt : Nat) :
    Except JsError Json × Nat :=
  match attemptResult (env attempt) with
  | .success v => (.ok v, 1)
  | .decodeFailure msg => (.error ⟨.decode, msg⟩, 1)
  | .caughtFailure k msg =>
    if h : attempt < retries then
      let r := fetchFrom env retries (attempt + 1)
      (r.1, r.2 + 1)
    else
      (.error ⟨k, msg⟩, 1)
termination_by retries - attempt
decreasing_by
  exact Nat.sub_lt_sub_left h (Nat.lt_succ_self attempt)

/-- Function `fetchWithTimeout(url)` as called by `parallelCalls`: the chain starts at
attempt 1. First component: settled outcome; second: attempts made. -/
def fetchWithTimeout (env : UrlEnv) (retries : Nat) : Except JsError Json × Nat :=
  fetchFrom env retries 1

/-- An attempt outcome that the `catch` block sees (and hence can retry). -/
def AttemptResult.isRetryable : AttemptResult → Bool
  | .caughtFailure _ _ => true
  | _ => false

/-- The options object accepted by `parallelCalls` (line 131): each field may
be omitted by the caller. The source names the timeout field `timeout`. -/
structure Options where
  timeout : Option Nat
  retries : Option Nat
  batchSize : Option Nat
deriving DecidableEq, Repr

/-- The configuration after destructuring with defaults
`{ timeout = 5000, retries = 3, batchSize = 5 }` (line 131). The source
performs no validation of any kind on these values. -/
structure Config where
  timeout : Nat
  retries : Nat
  batchSize : Nat
deriving DecidableEq, Repr

/-- Destructuring with defaults, as in line 131. -/
def resolveOptions (o : Options) : Config :=
  ⟨o.timeout.getD 5000, o.retries.getD 3, o.batchSize.getD 5⟩

/-- Computation `Math.ceil(n / b)` on naturals, for `b ≥ 1` (line 165). For `b = 0` the
JS expression is `Infinity` (or `NaN`) and `Array(...)` throws a RangeError;
that case is outside this model, so every batch-level theorem assumes
`1 ≤ batchSize` — which the spec's Configuration invariant demands anyway. -/
def ceilDiv (n b : Nat) : Nat := (n + b - 1) / b

/-- Slice `urls.slice(i * batchSize, (i + 1) * batchSize)` (line 167). -/
def batchSlice (urls : List String) (b i : Nat) : List String :=
  (urls.drop (i * b)).take b

/-- Semantics of `Promise.all` over an already-determined list of settled outcomes: all
fulfilled gives the list of values in order; otherwise a rejection surfaces.
In JS the surfaced rejection is the first in time; the model surfaces the
leftmost one — no theorem below depends on which rejection surfaces. -/
def promiseAll : List (Except JsError Json) → Except JsError (List Json)
  | [] => .ok []
  | .error e :: _ => .error e
  | .ok v :: rest =>
    match promiseAll rest with
    | .ok vs => .ok (v :: vs)
    | .error e => .error e

/-- Call of `fetchWithTimeout(url)` for one URL of the run. -/
def fetchOne (env : Env) (retries : Nat) (u : String) :
    Except JsError Json × Nat :=
  fetchWithTimeout (env u) retries

/-- Observable trace of one run of the batch loop: the settled outcome, how
many batches were started, and — for every URL for which at least one fetch
attempt was issued, in batch order — the number of attempts made for it. -/
structure RunTrace where
  result : Except JsError (List Json)
  batchesStarted : Nat
  attempts : List (String × Nat)
deriving DecidableEq, Repr

/-- The batch loop of `parallelCalls` (lines 162-172), started at batch index
`i` with `r` batch iterations remaining and accumulator `acc`. Each started
batch issues fetch chains for all URLs of its slice (`Promise.all` starts
every chain; sibling chains of a failing batch still run their attempts). On
a batch failure the loop stops: no later batch is started and the
accumulated results are discarded. -/
def runFrom (env : Env) (cfg : Config) (urls : List String) :
    Nat → Nat → List Json → RunTrace
  | _, 0, acc => ⟨.ok acc, 0, []⟩
  | i, r + 1, acc =>
    let batch := batchSlice urls cfg.batchSize i
    let tr := batch.map (fun u => (u, (fetchOne env cfg.retries u).2))
    match promiseAll (batch.map (fun u => (fetchOne env cfg.retries u).1)) with
    | .error e => ⟨.error e, 1, tr⟩
    | .ok vs =>
      let rest := runFrom env cfg urls (i + 1) r (acc ++ vs)
      ⟨rest.result, rest.batchesStarted + 1, tr ++ rest.attempts⟩

/-- One whole run of the batch loop of `parallelCalls`. -/
def runParallel (env : Env) (cfg : Config) (urls : List String) : RunTrace :=
  runFrom env cfg urls 0 (ceilDiv urls.length cfg.batchSize) []

/-- Function `parallelCalls(urls, options)` (lines 129-180): resolve the options, run
the batch loop, and on failure re-throw `new Error(message)` — the outer
`catch ({ message })` keeps only the message string of the underlying error
(line 176-178). -/
def parallelCalls (env : Env) (urls : List String) (opts : Options) :
    Except String (List Json) :=
  let cfg := resolveOptions opts
  match (runParallel env cfg urls).result with
  | .ok vs => .ok vs
  | .error e => .error e.message

/-- Operations on one attempt's cancellation timer (`timeoutId`, line 140). -/
inductive TimerOp where
  | fire
  | clear
deriving DecidableEq, Repr

/-- Lifecycle of one attempt's cancellation timer: pending (`armed`), fired
(its callback ran `controller.abort()`), or disarmed by `clearTimeout`.
`clearTimeout` on a non-armed timer is a no-op, and a fired timer never
fires again. -/
inductive TimerState where
  | armed
  | fired
  | cleared
deriving DecidableEq, Repr

/-- Effect of one timer operation. -/
def timerStep : TimerState → TimerOp → TimerState
  | .armed, .fire => .fired
  | .armed, .clear => .cleared
  | s, _ => s

/-- Run timer operations in order from a state; the second component counts
effective releases, i.e. transitions out of the `armed` state. -/
def runTimer : TimerState → List TimerOp → TimerState × Nat
  | s, [] => (s, 0)
  | s, op :: ops =>
    let s2 := timerStep s op
    let rest := runTimer s2 ops
    (rest.1, (if s = .armed ∧ s2 ≠ .armed then 1 else 0) + rest.2)

/-- Operations performed on ONE attempt's own timer, in program order, per
exit path of lines 142-158 (each attempt owns a fresh timer; a retry arms a
new one in the recursive call):
* response arrives (success, HTTP error or decode error): `clearTimeout` on
  line 144, then again in the `finally` (line 157);
* transport error before the timeout: only the `finally` clear;
* timeout: the timer fires (running `controller.abort()`), then the
  `finally` clear hits the already-fired timer. -/
def timerOps : AttemptEvent → List TimerOp
  | .response _ _ => [.clear, .clear]
  | .networkError _ => [.clear]
  | .timesOut _ => [.fire, .clear]

/-- Number of `true` entries: pending attempt chains of a batch. -/
def countTrue : List Bool → Nat
  | [] => 0
  | true :: t => countTrue t + 1
  | false :: t => countTrue t

/-- Event-loop state of the batch scheduler of `parallelCalls` (lines
161-172): between batches (`idle i`, about to consider batch `i`), running
batch `i` with one pending flag per URL of its slice, draining the slice of
a batch whose `Promise.all` already rejected (`failed`; sibling chains keep
running), or finished. A URL's retry chain issues its next attempt only when
the previous one settles (the recursive call sits in the `catch`), so one
pending flag accounts for at most one outstanding attempt at any instant. -/
inductive SchedState where
  | idle (nextBatch : Nat)
  | running (batchIdx : Nat) (pending : List Bool)
  | failed (pending : List Bool)
  | done
deriving DecidableEq, Repr

/-- Number of fetch attempts outstanding at an instant in a scheduler
state. -/
def outstanding : SchedState → Nat
  | .running _ pending => countTrue pending
  | .failed pending => countTrue pending
  | _ => 0

/-- One event-loop transition of the batch scheduler. `await Promise.all`
(line 168) starts every chain of the slice at once (`startBatch`) and batch
`i + 1` is considered only after batch `i` fully succeeded (`batchOk`
requires every chain settled); a rejected batch stops the loop (`batchFail`)
while its remaining sibling chains drain (`settleFailed`). -/
inductive SchedStep (cfg : Config) (urls : List String) :
    SchedState → SchedState → Prop
  | startBatch (i : Nat) (hi : i < ceilDiv urls.length cfg.batchSize) :
      SchedStep cfg urls (.idle i)
        (.running i
          (List.replicate (batchSlice urls cfg.batchSize i).length true))
  | settle (i j : Nat) (pending : List Bool)
      (hj : pending.get? j = some true) :
      SchedStep cfg urls (.running i pending)
        (.running i (pending.set j false))
  | batchOk (i : Nat) (pending : List Bool) (hall : countTrue pending = 0) :
      SchedStep cfg urls (.running i pending) (.idle (i + 1))
  | batchFail (i j : Nat) (pending : List Bool)
      (hj : pending.get? j = some true) :
      SchedStep cfg urls (.running i pending) (.failed (pending.set j false))
  | settleFailed (j : Nat) (pending : List Bool)
      (hj : pending.get? j = some true) :
      SchedStep cfg urls (.failed pending) (.failed (pending.set j false))
  | finish (i : Nat) (hi : ¬ i < ceilDiv urls.length cfg.batchSize) :
      SchedStep cfg urls (.idle i) .done

/-- Environment where every fetch succeeds on attempt 1 with HTTP 200 and a
body decoding to a value tagged with the URL itself. -/
def envOk : Env := fun u _ => .response 200 (.ok ⟨u⟩)

/-- Environment where every attempt of every URL receives HTTP 500. -/
def envHttp500 : Env := fun _ _ => .response 500 (.error "unused")

/-- URL environment where every attempt gets HTTP 200 but the body fails to
parse as JSON. -/
def badJsonU : UrlEnv := fun _ => .response 200 (.error "Unexpected end of JSON input")

/-- URL environment: attempt 1 gets HTTP 500, later attempts get HTTP 200
with a body that fails to parse as JSON. -/
def badJsonLate : UrlEnv := fun a =>
  if a = 1 then .response 500 (.error "unused")
  else .response 200 (.error "Unexpected token")

/-- URL environment that fails with HTTP 500 on attempts before `k` and
succeeds from attempt `k` on. -/
def envLate (k : Nat) : UrlEnv := fun a =>
  if a < k then .response 500 (.error "unused")
  else .response 200 (.ok ⟨"late"⟩)

/-- Environment where the URL `B` always receives HTTP 500 and every other
URL succeeds on attempt 1. -/
def envFailB : Env := fun u _ =>
  if u = "B" then .response 500 (.error "unused")
  else .response 200 (.ok ⟨u⟩)

theorem fetchFrom_success {env : UrlEnv} {retries attempt : Nat} {v : Json}
    (h : attemptResult (env attempt) = .success v) :
    fetchFrom env retries attempt = (.ok v, 1) := by
  unfold fetchFrom
  rw [h]

theorem fetchFrom_decode {env : UrlEnv} {retries attempt : Nat} {msg : String}
    (h : attemptResult (env attempt) = .decodeFailure msg) :
    fetchFrom env retries attempt = (.error ⟨.decode, msg⟩, 1) := by
  unfold fetchFrom
  rw [h]

theorem fetchFrom_retry {env : UrlEnv} {retries attempt : Nat} {k : FailKind}
    {msg : String} (h : attemptResult (env attempt) = .caughtFailure k msg)
    (hlt : attempt < retries) :
    fetchFrom env retries attempt =
      ((fetchFrom env retries (attempt + 1)).1,
        (fetchFrom env retries (attempt + 1)).2 + 1) := by
  rw [fetchFrom, h]
  simp [hlt]

theorem fetchFrom_exhausted {env : UrlEnv} {retries attempt : Nat}
    {k : FailKind} {msg : String}
    (h : attemptResult (env attempt) = .caughtFailure k msg)
    (hge : ¬ attempt < retries) :
    fetchFrom env retries attempt = (.error ⟨k, msg⟩, 1) := by
  rw [fetchFrom, h]
  simp [hge]

theorem isRetryable_iff {x : AttemptResult} :
    x.isRetryable = true ↔ ∃ k m, x = .caughtFailure k m := by
  cases x <;> simp [AttemptResult.isRetryable]

/-- If every attempt in `[a, s)` fails in a way the `catch` block sees, the
chain from `a` behaves like the chain from `s`, with `s - a` extra attempts. -/
theorem fetchFrom_shift (env : UrlEnv) (r : Nat) :
    ∀ a s, a ≤ s → s ≤ r →
    (∀ k, a ≤ k → k < s → (attemptResult (env k)).isRetryable = true) →
    fetchFrom env r a =
      ((fetchFrom env r s).1, (fetchFrom env r s).2 + (s - a)) := by
  intro a s has hsr hret
  generalize hn : s - a = n
  induction n generalizing a with
  | zero =>
    have : a = s := Nat.le_antisymm has (Nat.le_of_sub_eq_zero hn)
    subst this
    simp
  | succ n ih =>
    have hlt : a < s := Nat.lt_of_sub_eq_succ hn
    obtain ⟨k, m, hk⟩ := isRetryable_iff.mp (hret a (Nat.le_refl a) hlt)
    rw [fetchFrom_retry hk (Nat.lt_of_lt_of_le hlt hsr)]
    have h2 : s - (a + 1) = n := by omega
    rw [ih (a + 1) hlt (fun k hk1 hk2 => hret k (Nat.le_of_succ_le hk1) hk2) h2]
    have h3 : s - a = n + 1 := hn
    simp [h3]
    omega

/-- A URL whose every attempt fails in a `catch`-visible way makes exactly
`retries` attempts (when `retries ≥ 1`) and escalates the failure of the
last attempt. -/
theorem fetchFrom_all_caught (env : UrlEnv) (r : Nat) {fk : FailKind}
    {msg : String} (hr : 1 ≤ r)
    (hret : ∀ k, 1 ≤ k → k < r → (attemptResult (env k)).isRetryable = true)
    (hlast : attemptResult (env r) = .caughtFailure fk msg) :
    fetchWithTimeout env r = (.error ⟨fk, msg⟩, r) := by
  unfold fetchWithTimeout
  rw [fetchFrom_shift env r 1 r hr (Nat.le_refl r) hret]
  rw [fetchFrom_exhausted hlast (Nat.lt_irrefl r)]
  simp
  omega

/-- A URL whose first success is at attempt `s ≤ retries` (all earlier
attempts failing `catch`-visibly) makes exactly `s` attempts. -/
theorem fetchFrom_first_success (env : UrlEnv) (r : Nat) {v : Json} {s : Nat}
    (hs : 1 ≤ s) (hsr : s ≤ r)
    (hret : ∀ k, 1 ≤ k → k < s → (attemptResult (env k)).isRetryable = true)
    (hsucc : attemptResult (env s) = .success v) :
    fetchWithTimeout env r = (.ok v, s) := by
  unfold fetchWithTimeout
  rw [fetchFrom_shift env r 1 s hs hsr hret]
  rw [fetchFrom_success hsucc]
  simp
  omega

/-- A decode failure at attempt `d` ends the chain right there — the
un-awaited `return response.json()` bypasses the `catch` block, so no retry
happens even when `d < retries`. -/
theorem fetchFrom_decode_at (env : UrlEnv) (r : Nat) {m : String} {d : Nat}
    (hd : 1 ≤ d) (hdr : d ≤ r)
    (hret : ∀ k, 1 ≤ k → k < d → (attemptResult (env k)).isRetryable = true)
    (hdec : attemptResult (env d) = .decodeFailure m) :
    fetchWithTimeout env r = (.error ⟨.decode, m⟩, d) := by
  unfold fetchWithTimeout
  rw [fetchFrom_shift env r 1 d hd hdr hret]
  rw [fetchFrom_decode hdec]
  simp
  omega

/-- Every attempt chain makes at least one attempt. -/
theorem fetchFrom_count_pos (env : UrlEnv) (r a : Nat) :
    1 ≤ (fetchFrom env r a).2 := by
  unfold fetchFrom
  cases h : attemptResult (env a) with
  | success v => simp
  | decodeFailure m => simp
  | caughtFailure k m =>
    by_cases hlt : a < r
    · simp [hlt]
    · simp [hlt]

/-- The chain started at attempt `a` makes at most `r - a + 1` attempts. -/
theorem fetchFrom_count_le (env : UrlEnv) (r : Nat) :
    ∀ a, (fetchFrom env r a).2 ≤ r - a + 1 := by
  intro a
  generalize hn : r - a = n
  induction n generalizing a with
  | zero =>
    have hge : ¬ a < r := by omega
    unfold fetchFrom
    cases h : attemptResult (env a) with
    | success v => simp
    | decodeFailure m => simp
    | caughtFailure k m => simp [hge]
  | succ n ih =>
    have hlt : a < r := by omega
    unfold fetchFrom
    cases h : attemptResult (env a) with
    | success v => simp
    | decodeFailure m => simp
    | caughtFailure k m =>
      have h2 : r - (a + 1) = n := by omega
      have := ih (a + 1) h2
      simp [hlt]
      omega

theorem promiseAll_ok {l : List String} {f : String → Except JsError Json}
    {g : String → Json} (h : ∀ u ∈ l, f u = .ok (g u)) :
    promiseAll (l.map f) = .ok (l.map g) := by
  induction l with
  | nil => rfl
  | cons x xs ih =>
    have hx := h x (List.mem_cons_self x xs)
    have hxs := ih (fun u hu => h u (List.mem_cons_of_mem x hu))
    simp only [List.map_cons, hx, promiseAll, hxs]

theorem promiseAll_ok_of {l : List String} {f : String → Except JsError Json}
    (h : ∀ u ∈ l, ∃ v, f u = .ok v) :
    ∃ vs, promiseAll (l.map f) = .ok vs := by
  induction l with
  | nil => exact ⟨[], rfl⟩
  | cons x xs ih =>
    obtain ⟨v, hv⟩ := h x (List.mem_cons_self x xs)
    obtain ⟨vs, hvs⟩ := ih (fun u hu => h u (List.mem_cons_of_mem x hu))
    exact ⟨v :: vs, by simp only [List.map_cons, hv, promiseAll, hvs]⟩

theorem promiseAll_error_of_mem {l : List String}
    {f : String → Except JsError Json} {u : String} {e : JsError}
    (hu : u ∈ l) (he : f u = .error e) :
    ∃ e2, promiseAll (l.map f) = .error e2 := by
  induction l with
  | nil => cases hu
  | cons x xs ih =>
    rcases List.mem_cons.mp hu with rfl | hmem
    · exact ⟨e, by simp only [List.map_cons, he, promiseAll]⟩
    · cases hx : f x with
      | error ex => exact ⟨ex, by simp only [List.map_cons, hx, promiseAll]⟩
      | ok vx =>
        obtain ⟨e2, he2⟩ := ih hmem
        refine ⟨e2, ?_⟩
        simp only [List.map_cons, hx, promiseAll, he2]

theorem ceilDiv_of_pos {m b : Nat} (hb : 0 < b) (hm : 1 ≤ m) :
    ceilDiv m b = (m - 1) / b + 1 := by
  unfold ceilDiv
  have h1 : m + b - 1 = (m - 1) + b := by omega
  rw [h1, Nat.add_div_right _ hb]

theorem ceilDiv_eq_zero_iff {m b : Nat} (hb : 0 < b) :
    ceilDiv m b = 0 ↔ m = 0 := by
  constructor
  · intro h
    by_contra hm
    rw [ceilDiv_of_pos hb (by omega)] at h
    exact Nat.succ_ne_zero _ h
  · intro h
    subst h
    unfold ceilDiv
    exact Nat.div_eq_of_lt (by omega)

theorem ceilDiv_sub_b {m b : Nat} (hb : 0 < b) (hm : 1 ≤ m) :
    ceilDiv (m - b) b = ceilDiv m b - 1 := by
  by_cases hbm : b + 1 ≤ m
  · rw [ceilDiv_of_pos hb (by omega), ceilDiv_of_pos hb hm]
    have hx : (m - 1 - b) + b = m - 1 := by omega
    have h2 : (m - 1) / b = (m - 1 - b) / b + 1 := by
      conv_lhs => rw [← hx]
      rw [Nat.add_div_right _ hb]
    have h3 : m - b - 1 = m - 1 - b := by omega
    rw [h3, h2]
    simp
  · have h0 : m - b = 0 := by omega
    rw [h0, (ceilDiv_eq_zero_iff hb).mpr rfl, ceilDiv_of_pos hb hm]
    rw [Nat.div_eq_of_lt (by omega)]

/-- If every URL from batch `i` on fetches successfully, the batch loop from
`i` runs all remaining batches, appends the decoded values in input order,
and its trace lists every remaining URL with its attempt count. -/
theorem runFrom_success (env : Env) (cfg : Config) (urls : List String)
    (g : String → Json) (hb : 0 < cfg.batchSize) :
    ∀ r i acc,
    (∀ u ∈ urls.drop (i * cfg.batchSize),
        (fetchOne env cfg.retries u).1 = .ok (g u)) →
    ceilDiv (urls.length - i * cfg.batchSize) cfg.batchSize = r →
    runFrom env cfg urls i r acc =
      ⟨.ok (acc ++ (urls.drop (i * cfg.batchSize)).map g), r,
        (urls.drop (i * cfg.batchSize)).map
          (fun u => (u, (fetchOne env cfg.retries u).2))⟩ := by
  intro r
  induction r with
  | zero =>
    intro i acc hok hr
    have hm : urls.length - i * cfg.batchSize = 0 :=
      (ceilDiv_eq_zero_iff hb).mp hr
    have hnil : urls.drop (i * cfg.batchSize) = [] :=
      List.drop_eq_nil_iff.mpr (by omega)
    rw [runFrom, hnil]
    simp
  | succ r ih =>
    intro i acc hok hr
    have hm1 : 1 ≤ urls.length - i * cfg.batchSize := by
      by_contra h
      have h0 : urls.length - i * cfg.batchSize = 0 := by omega
      have := (ceilDiv_eq_zero_iff (m := urls.length - i * cfg.batchSize) hb).mpr h0
      omega
    have hball : ∀ u ∈ batchSlice urls cfg.batchSize i,
        (fetchOne env cfg.retries u).1 = .ok (g u) := by
      intro u hu
      exact hok u (List.take_subset _ _ hu)
    have hpa := promiseAll_ok
      (f := fun u => (fetchOne env cfg.retries u).1) (g := g) hball
    have hdrop : urls.drop ((i + 1) * cfg.batchSize) =
        (urls.drop (i * cfg.batchSize)).drop cfg.batchSize := by
      rw [List.drop_drop, Nat.succ_mul]
    have hlen : urls.length - (i + 1) * cfg.batchSize =
        (urls.length - i * cfg.batchSize) - cfg.batchSize := by
      rw [Nat.succ_mul]; omega
    have hr2 : ceilDiv (urls.length - (i + 1) * cfg.batchSize)
        cfg.batchSize = r := by
      rw [hlen, ceilDiv_sub_b hb hm1, hr]
      omega
    have hok2 : ∀ u ∈ urls.drop ((i + 1) * cfg.batchSize),
        (fetchOne env cfg.retries u).1 = .ok (g u) := by
      intro u hu
      rw [hdrop] at hu
      exact hok u (List.drop_subset _ _ hu)
    have hrest := ih (i + 1) (acc ++ (batchSlice urls cfg.batchSize i).map g)
      hok2 hr2
    rw [runFrom]
    simp only [hpa, hrest]
    refine RunTrace.mk.injEq .. ▸ ?_
    rw [hdrop]
    unfold batchSlice
    refine ⟨?_, rfl, ?_⟩
    · rw [List.append_assoc, ← List.map_append, List.take_append_drop]
    · rw [← List.map_append, List.take_append_drop]

/-- Fail-fast: when batches before `fi` all succeed and some URL of batch
`fi` exhausts its fetch chain, the loop started at `i ≤ fi` stops after batch
`fi` with an error, having started exactly `fi - i + 1` batches, and its
trace covers exactly the URLs of batches `i .. fi`. -/
theorem runFrom_fail (env : Env) (cfg : Config) (urls : List String)
    (hb : 0 < cfg.batchSize) (fi : Nat)
    (hok : ∀ j, j < fi → ∀ u ∈ batchSlice urls cfg.batchSize j,
        ∃ v, (fetchOne env cfg.retries u).1 = .ok v)
    (hfail : ∃ u ∈ batchSlice urls cfg.batchSize fi,
        ∃ e, (fetchOne env cfg.retries u).1 = .error e) :
    ∀ n i acc, i ≤ fi → fi - i = n →
    ∃ e2, runFrom env cfg urls i
        (ceilDiv (urls.length - i * cfg.batchSize) cfg.batchSize) acc =
      ⟨.error e2, fi - i + 1,
        ((urls.drop (i * cfg.batchSize)).take
            ((fi - i) * cfg.batchSize + cfg.batchSize)).map
          (fun u => (u, (fetchOne env cfg.retries u).2))⟩ := by
  have hfi_lt : fi * cfg.batchSize < urls.length := by
    obtain ⟨u, hu, _⟩ := hfail
    by_contra hge
    have hnil : urls.drop (fi * cfg.batchSize) = [] :=
      List.drop_eq_nil_iff.mpr (by omega)
    rw [batchSlice, hnil] at hu
    simp at hu
  intro n
  induction n with
  | zero =>
    intro i acc hif hn
    have hieq : i = fi := by omega
    subst hieq
    have hm1 : 1 ≤ urls.length - i * cfg.batchSize := by omega
    have hr1 : 1 ≤ ceilDiv (urls.length - i * cfg.batchSize) cfg.batchSize := by
      by_contra h
      have h0 := (ceilDiv_eq_zero_iff
        (m := urls.length - i * cfg.batchSize) hb).mp (by omega)
      omega
    obtain ⟨r0, hr0⟩ : ∃ r0,
        ceilDiv (urls.length - i * cfg.batchSize) cfg.batchSize = r0 + 1 :=
      ⟨ceilDiv (urls.length - i * cfg.batchSize) cfg.batchSize - 1, by omega⟩
    obtain ⟨u, hu, e, he⟩ := hfail
    obtain ⟨e2, he2⟩ := promiseAll_error_of_mem
      (f := fun u => (fetchOne env cfg.retries u).1) hu he
    refine ⟨e2, ?_⟩
    rw [hr0, runFrom]
    simp only [he2]
    simp [batchSlice]
  | succ n ih =>
    intro i acc hif hn
    have hlt : i < fi := by omega
    have hib : i * cfg.batchSize < urls.length :=
      Nat.lt_of_le_of_lt (Nat.mul_le_mul_right _ (Nat.le_of_lt hlt)) hfi_lt
    have hm1 : 1 ≤ urls.length - i * cfg.batchSize := by omega
    have hr1 : 1 ≤ ceilDiv (urls.length - i * cfg.batchSize) cfg.batchSize := by
      by_contra h
      have h0 := (ceilDiv_eq_zero_iff
        (m := urls.length - i * cfg.batchSize) hb).mp (by omega)
      omega
    obtain ⟨r0, hr0⟩ : ∃ r0,
        ceilDiv (urls.length - i * cfg.batchSize) cfg.batchSize = r0 + 1 :=
      ⟨ceilDiv (urls.length - i * cfg.batchSize) cfg.batchSize - 1, by omega⟩
    obtain ⟨vs, hpa⟩ := promiseAll_ok_of (hok i hlt)
    have hlen : urls.length - (i + 1) * cfg.batchSize =
        (urls.length - i * cfg.batchSize) - cfg.batchSize := by
      rw [Nat.succ_mul]; omega
    have hr2 : ceilDiv (urls.length - (i + 1) * cfg.batchSize)
        cfg.batchSize = r0 := by
      rw [hlen, ceilDiv_sub_b hb hm1, hr0]
      omega
    obtain ⟨e2, hrest⟩ := ih (i + 1) (acc ++ vs) (by omega) (by omega)
    rw [hr2] at hrest
    refine ⟨e2, ?_⟩
    rw [hr0, runFrom]
    simp only [hpa, hrest]
    have hdrop : urls.drop ((i + 1) * cfg.batchSize) =
        (urls.drop (i * cfg.batchSize)).drop cfg.batchSize := by
      rw [List.drop_drop, Nat.succ_mul]
    have harith : (fi - i) * cfg.batchSize + cfg.batchSize =
        cfg.batchSize + ((fi - (i + 1)) * cfg.batchSize + cfg.batchSize) := by
      have h1 : fi - i = (fi - (i + 1)) + 1 := by omega
      rw [h1, Nat.succ_mul]
      ring
    have htr : (List.take cfg.batchSize
          (urls.drop (i * cfg.batchSize))).map
            (fun u => (u, (fetchOne env cfg.retries u).2)) ++
        (List.take ((fi - (i + 1)) * cfg.batchSize + cfg.batchSize)
            ((urls.drop (i * cfg.batchSize)).drop cfg.batchSize)).map
          (fun u => (u, (fetchOne env cfg.retries u).2)) =
        (List.take ((fi - i) * cfg.batchSize + cfg.batchSize)
            (urls.drop (i * cfg.batchSize))).map
          (fun u => (u, (fetchOne env cfg.retries u).2)) := by
      conv_rhs => rw [harith, List.take_add, List.map_append]
    refine RunTrace.mk.injEq .. ▸ ⟨rfl, by omega, ?_⟩
    rw [batchSlice, hdrop]
    exact htr

/-- All-success characterisation of one whole run. -/
theorem parallel_ok (env : Env) (urls : List String) (opts : Options)
    (g : String → Json) (hb : 0 < (resolveOptions opts).batchSize)
    (hok : ∀ u ∈ urls,
      (fetchOne env (resolveOptions opts).retries u).1 = .ok (g u)) :
    runParallel env (resolveOptions opts) urls =
      ⟨.ok (urls.map g),
        ceilDiv urls.length (resolveOptions opts).batchSize,
        urls.map (fun u => (u, (fetchOne env (resolveOptions opts).retries u).2))⟩ ∧
    parallelCalls env urls opts = .ok (urls.map g) := by
  have h1 := runFrom_success env (resolveOptions opts) urls g hb
    (ceilDiv urls.length (resolveOptions opts).batchSize) 0 []
    (by intro u hu; apply hok; simpa using hu) (by simp)
  have hrp : runParallel env (resolveOptions opts) urls =
      ⟨.ok (urls.map g),
        ceilDiv urls.length (resolveOptions opts).batchSize,
        urls.map (fun u => (u, (fetchOne env (resolveOptions opts).retries u).2))⟩ := by
    rw [runParallel, h1]
    simp
  refine ⟨hrp, ?_⟩
  simp only [parallelCalls, hrp]

/-- Failure characterisation of one whole run, from the first failing
batch. -/
theorem runParallel_fail (env : Env) (cfg : Config) (urls : List String)
    (hb : 0 < cfg.batchSize) (fi : Nat)
    (hok : ∀ j, j < fi → ∀ u ∈ batchSlice urls cfg.batchSize j,
        ∃ v, (fetchOne env cfg.retries u).1 = .ok v)
    (hfail : ∃ u ∈ batchSlice urls cfg.batchSize fi,
        ∃ e, (fetchOne env cfg.retries u).1 = .error e) :
    ∃ e2, runParallel env cfg urls =
      ⟨.error e2, fi + 1,
        (urls.take (fi * cfg.batchSize + cfg.batchSize)).map
          (fun u => (u, (fetchOne env cfg.retries u).2))⟩ := by
  obtain ⟨e2, h⟩ := runFrom_fail env cfg urls hb fi hok hfail (fi - 0) 0 []
    (by omega) rfl
  refine ⟨e2, ?_⟩
  rw [runParallel]
  simpa using h

theorem countTrue_replicate (n : Nat) :
    countTrue (List.replicate n true) = n := by
  induction n with
  | zero => rfl
  | succ n ih => simp [List.replicate, countTrue, ih]

theorem countTrue_set_false_le (l : List Bool) :
    ∀ j, countTrue (l.set j false) ≤ countTrue l := by
  induction l with
  | nil => intro j; exact Nat.le_refl _
  | cons b t ih =>
    intro j
    cases j with
    | zero =>
      cases b with
      | true => simp [countTrue]
      | false => simp [countTrue]
    | succ j =>
      cases b with
      | true => simp only [List.set, countTrue]; exact Nat.add_le_add_right (ih j) 1
      | false => simp only [List.set, countTrue]; exact ih j

/-- C1: for every URL list and configuration (with the spec's positivity
invariant), if every URL's fetch chain succeeds within its retry budget then
`parallelCalls` resolves with a list of exactly one decoded JSON value per
input URL, the k-th entry being the value fetched for the k-th URL. -/
theorem c1_success_output (env : Env) (urls : List String) (opts : Options)
    (g : String → Json) (hb : 0 < (resolveOptions opts).batchSize)
    (hok : ∀ u ∈ urls,
      (fetchOne env (resolveOptions opts).retries u).1 = .ok (g u)) :
    parallelCalls env urls opts = .ok (urls.map g) ∧
    (urls.map g).length = urls.length ∧
    ∀ k, k < urls.length → (urls.map g)[k]? = (urls[k]?).map g := by
  refine ⟨(parallel_ok env urls opts g hb hok).2, List.length_map urls g, ?_⟩
  intro k _
  exact List.getElem?_map g urls k

/-- C1 witness: three URLs, default options, every fetch succeeding on
attempt 1. -/
theorem c1_success_output_witness :
    parallelCalls envOk ["a", "b", "c"] ⟨none, none, none⟩ =
      .ok [⟨"a"⟩, ⟨"b"⟩, ⟨"c"⟩] :=
  (c1_success_output envOk ["a", "b", "c"] ⟨none, none, none⟩
    (fun u => ⟨u⟩) (by decide)
    (fun u _ => congrArg Prod.fst
      (@fetchFrom_success (envOk u) 3 1 ⟨u⟩ rfl))).1

/-- C10: for the empty URL list, zero batches are scheduled, `parallelCalls`
resolves with the empty list, and no fetch attempt is made (empty attempt
trace). -/
theorem c10_empty_input (env : Env) (opts : Options)
    (hb : 0 < (resolveOptions opts).batchSize) :
    ceilDiv 0 (resolveOptions opts).batchSize = 0 ∧
    runParallel env (resolveOptions opts) [] = ⟨.ok [], 0, []⟩ ∧
    parallelCalls env [] opts = .ok [] := by
  have h := parallel_ok env [] opts (fun u => ⟨u⟩) hb (by intro u hu; cases hu)
  have hz : ceilDiv 0 (resolveOptions opts).batchSize = 0 :=
    (ceilDiv_eq_zero_iff hb).mpr rfl
  refine ⟨hz, ?_, ?_⟩
  · rw [h.1]
    simp [hz]
  · exact h.2

/-- C10 witness: default options on the empty list. -/
theorem c10_empty_input_witness :
    parallelCalls envOk [] ⟨none, none, none⟩ = .ok [] :=
  (c10_empty_input envOk ⟨none, none, none⟩ (by decide)).2.2

/-- C7: the scheduler runs exactly `ceil(urls.length / batchSize)` batches,
batch `i` being the slice `urls[i*batchSize : (i+1)*batchSize]`, in
increasing index order with the outputs concatenated in input order; in the
concrete scenario `urls = [A,B,C,D,E]`, `batchSize = 2`, the batches are
`[A,B]`, `[C,D]`, `[E]` and the output is the five results in order. -/
theorem c7_batch_structure (env : Env) (urls : List String) (opts : Options)
    (g : String → Json) (hb : 0 < (resolveOptions opts).batchSize)
    (hok : ∀ u ∈ urls,
      (fetchOne env (resolveOptions opts).retries u).1 = .ok (g u)) :
    ((runParallel env (resolveOptions opts) urls).batchesStarted =
        ceilDiv urls.length (resolveOptions opts).batchSize ∧
      parallelCalls env urls opts = .ok (urls.map g)) ∧
    (ceilDiv 5 2 = 3 ∧
      batchSlice ["A", "B", "C", "D", "E"] 2 0 = ["A", "B"] ∧
      batchSlice ["A", "B", "C", "D", "E"] 2 1 = ["C", "D"] ∧
      batchSlice ["A", "B", "C", "D", "E"] 2 2 = ["E"] ∧
      parallelCalls envOk ["A", "B", "C", "D", "E"] ⟨none, none, some 2⟩ =
        .ok [⟨"A"⟩, ⟨"B"⟩, ⟨"C"⟩, ⟨"D"⟩, ⟨"E"⟩] ∧
      (runParallel envOk (resolveOptions ⟨none, none, some 2⟩)
          ["A", "B", "C", "D", "E"]).batchesStarted = 3) := by
  have hp := parallel_ok env urls opts g hb hok
  have hp2 := parallel_ok envOk ["A", "B", "C", "D", "E"] ⟨none, none, some 2⟩
    (fun u => ⟨u⟩) (by decide)
    (fun u _ => congrArg Prod.fst (@fetchFrom_success (envOk u) 3 1 ⟨u⟩ rfl))
  refine ⟨⟨by rw [hp.1], hp.2⟩, by decide, rfl, rfl, rfl, hp2.2,
    by rw [hp2.1]; rfl⟩

/-- C7 witness: the concrete scenario itself, through the theorem. -/
theorem c7_batch_structure_witness :
    parallelCalls envOk ["A", "B", "C", "D", "E"] ⟨none, none, some 2⟩ =
      .ok [⟨"A"⟩, ⟨"B"⟩, ⟨"C"⟩, ⟨"D"⟩, ⟨"E"⟩] :=
  (c7_batch_structure envOk ["A", "B", "C", "D", "E"] ⟨none, none, some 2⟩
    (fun u => ⟨u⟩) (by decide)
    (fun u _ => congrArg Prod.fst
      (@fetchFrom_success (envOk u) 3 1 ⟨u⟩ rfl))).2.2.2.2.2.1

/-- C3: if batches before `fi` fully succeed and some URL of batch `fi`
exhausts all its permitted attempts, the whole operation fails: the run stops
after batch `fi` (no attempt for any URL of a later batch — the attempt trace
covers exactly the first `fi + 1` slices), prior results are discarded, and
the caller of `parallelCalls` receives an error, not a partial result. -/
theorem c3_fail_fast (env : Env) (urls : List String) (opts : Options)
    (fi : Nat) (hb : 0 < (resolveOptions opts).batchSize)
    (hok : ∀ j, j < fi →
      ∀ u ∈ batchSlice urls (resolveOptions opts).batchSize j,
        ∃ v, (fetchOne env (resolveOptions opts).retries u).1 = .ok v)
    (hfail : ∃ u ∈ batchSlice urls (resolveOptions opts).batchSize fi,
        ∃ e, (fetchOne env (resolveOptions opts).retries u).1 = .error e) :
    ∃ e2, runParallel env (resolveOptions opts) urls =
        ⟨.error e2, fi + 1,
          (urls.take ((fi + 1) * (resolveOptions opts).batchSize)).map
            (fun u => (u, (fetchOne env (resolveOptions opts).retries u).2))⟩ ∧
      parallelCalls env urls opts = .error e2.message := by
  obtain ⟨e2, h⟩ := runParallel_fail env (resolveOptions opts) urls hb fi
    hok hfail
  refine ⟨e2, ?_, ?_⟩
  · rw [Nat.succ_mul]
    exact h
  · simp only [parallelCalls, h]

/-- C3 witness: two URLs, batch size 1; `A` (batch 0) succeeds, `B`
(batch 1) fails all three default attempts. -/
theorem c3_fail_fast_witness :
    ∃ e2, runParallel envFailB (resolveOptions ⟨none, none, some 1⟩)
        ["A", "B"] =
        ⟨.error e2, 2,
          (["A", "B"].take (2 * 1)).map
            (fun u => (u, (fetchOne envFailB 3 u).2))⟩ ∧
      parallelCalls envFailB ["A", "B"] ⟨none, none, some 1⟩ =
        .error e2.message := by
  refine c3_fail_fast envFailB ["A", "B"] ⟨none, none, some 1⟩ 1 (by decide)
    ?_ ?_
  · intro j hj u hu
    have hj0 : j = 0 := by omega
    subst hj0
    have hsl0 : batchSlice ["A", "B"]
        (resolveOptions ⟨none, none, some 1⟩).batchSize 0 = ["A"] := rfl
    rw [hsl0] at hu
    have hu2 : u = "A" := by simpa using hu
    subst hu2
    exact ⟨⟨"A"⟩, congrArg Prod.fst (@fetchFrom_success (envFailB "A") 3 1 ⟨"A"⟩ rfl)⟩
  · have hsl1 : batchSlice ["A", "B"]
        (resolveOptions ⟨none, none, some 1⟩).batchSize 1 = ["B"] := rfl
    refine ⟨"B", by rw [hsl1]; simp,
      ⟨.httpStatus, "HTTP error! status: 500"⟩, ?_⟩
    exact congrArg Prod.fst
      (@fetchFrom_all_caught (envFailB "B") 3 .httpStatus
        "HTTP error! status: 500" (by decide) (fun k h1 h2 => rfl) rfl)

/-- A run over a single URL whose fetch chain fails: the run fails with that
chain's error. -/
theorem runParallel_single_fail (env : Env) (cfg : Config) (u : String)
    (e : JsError) (hb : 0 < cfg.batchSize)
    (hf : (fetchOne env cfg.retries u).1 = .error e) :
    (runParallel env cfg [u]).result = .error e := by
  have hceil : ceilDiv (List.length [u]) cfg.batchSize = 1 := by
    rw [ceilDiv_of_pos hb (by simp)]
    simp
  have hbs : batchSlice [u] cfg.batchSize 0 = [u] := by
    rw [batchSlice]
    simp only [Nat.zero_mul, List.drop_zero]
    exact List.take_of_length_le (by simpa using hb)
  rw [runParallel, hceil, runFrom, hbs]
  simp only [List.map_cons, List.map_nil, hf, promiseAll]

/-- A `parallelCalls` run over a single URL whose fetch chain fails returns
just the message of that chain's error. -/
theorem parallel_single_fail (env : Env) (opts : Options) (u : String)
    (e : JsError) (hb : 0 < (resolveOptions opts).batchSize)
    (hf : (fetchOne env (resolveOptions opts).retries u).1 = .error e) :
    parallelCalls env [u] opts = .error e.message := by
  have hres := runParallel_single_fail env (resolveOptions opts) u e hb hf
  unfold parallelCalls
  simp only [hres]

/-- C2 counterexample: with `retries = 3` and every attempt failing (as a
decode failure), only ONE attempt is made, not `retries` — the un-awaited
`return response.json()` bypasses the retry logic. -/
theorem c2_decode_breaks_retry_count :
    attemptResult (badJsonU 1) =
      .decodeFailure "Unexpected end of JSON input" ∧
    attemptResult (badJsonU 2) =
      .decodeFailure "Unexpected end of JSON input" ∧
    attemptResult (badJsonU 3) =
      .decodeFailure "Unexpected end of JSON input" ∧
    (fetchWithTimeout badJsonU 3).2 = 1 ∧
    (fetchWithTimeout badJsonU 3).2 ≠ 3 := by
  have h : fetchWithTimeout badJsonU 3 =
      (.error ⟨.decode, "Unexpected end of JSON input"⟩, 1) :=
    @fetchFrom_decode badJsonU 3 1 "Unexpected end of JSON input" rfl
  refine ⟨rfl, rfl, rfl, ?_, ?_⟩
  · rw [h]
  · rw [h]
    decide

/-- C2 (amended): with `retries ≥ 1`, a URL whose every attempt fails in a
catch-visible way (Timeout / HttpStatus / Network) makes exactly `retries`
attempts; a first success at attempt `s ≤ retries` makes exactly `s`
attempts; a decode failure at attempt `d ≤ retries` ends the chain after
exactly `d` attempts (this is where the original claim fails); in every case
the attempt count lies between 1 and `retries`. -/
theorem c2_retry_count_amended (env : UrlEnv) (r : Nat) (hr : 1 ≤ r) :
    ((∀ k, 1 ≤ k → k ≤ r → (attemptResult (env k)).isRetryable = true) →
      (fetchWithTimeout env r).2 = r) ∧
    (∀ s v, 1 ≤ s → s ≤ r →
      (∀ k, 1 ≤ k → k < s → (attemptResult (env k)).isRetryable = true) →
      attemptResult (env s) = .success v →
      (fetchWithTimeout env r).2 = s) ∧
    (∀ d m, 1 ≤ d → d ≤ r →
      (∀ k, 1 ≤ k → k < d → (attemptResult (env k)).isRetryable = true) →
      attemptResult (env d) = .decodeFailure m →
      (fetchWithTimeout env r).2 = d) ∧
    1 ≤ (fetchWithTimeout env r).2 ∧ (fetchWithTimeout env r).2 ≤ r := by
  refine ⟨?_, ?_, ?_, ?_, ?_⟩
  · intro hall
    obtain ⟨fk, m, hm⟩ := isRetryable_iff.mp (hall r hr (Nat.le_refl r))
    rw [fetchFrom_all_caught env r hr
      (fun k h1 h2 => hall k h1 (Nat.le_of_lt h2)) hm]
  · intro s v h1 h2 hret hs
    rw [fetchFrom_first_success env r h1 h2 hret hs]
  · intro d m h1 h2 hret hd
    rw [fetchFrom_decode_at env r h1 h2 hret hd]
  · exact fetchFrom_count_pos env r 1
  · have h := fetchFrom_count_le env r 1
    unfold fetchWithTimeout
    omega

/-- C2 witness: retries = 3, attempt 1 fails with HTTP 500, attempt 2
succeeds: exactly 2 attempts are made. -/
theorem c2_retry_count_witness : (fetchWithTimeout (envLate 2) 3).2 = 2 :=
  (c2_retry_count_amended (envLate 2) 3 (by decide)).2.1 2 ⟨"late"⟩
    (by decide) (by decide)
    (fun k h1 h2 => by
      have hk : k = 1 := by omega
      subst hk
      rfl) rfl

/-- C4 counterexample: an attempt whose response has a success status but
whose body fails to parse is NOT treated like the other failures — with
attempt number 1 below retries = 3, no further attempt is issued and the
decode failure escapes immediately. -/
theorem c4_decode_bypasses_retry :
    attemptResult (badJsonU 1) =
      .decodeFailure "Unexpected end of JSON input" ∧
    (1 : Nat) < 3 ∧
    fetchWithTimeout badJsonU 3 =
      (.error ⟨.decode, "Unexpected end of JSON input"⟩, 1) := by
  refine ⟨rfl, by decide, ?_⟩
  exact @fetchFrom_decode badJsonU 3 1 "Unexpected end of JSON input" rfl

/-- C4 (amended): catch-visible failures (Timeout / HttpStatus / Network)
are retried below the budget and escape only after `retries` attempts, but a
Decode failure escapes to the caller immediately at the attempt where it
occurs, even when that attempt number is below `retries`. -/
theorem c4_retry_policy_amended (env : UrlEnv) (r : Nat) (hr : 1 ≤ r) :
    (∀ d m, 1 ≤ d → d ≤ r →
      (∀ k, 1 ≤ k → k < d → (attemptResult (env k)).isRetryable = true) →
      attemptResult (env d) = .decodeFailure m →
      fetchWithTimeout env r = (.error ⟨.decode, m⟩, d)) ∧
    (∀ fk m,
      (∀ k, 1 ≤ k → k < r → (attemptResult (env k)).isRetryable = true) →
      attemptResult (env r) = .caughtFailure fk m →
      fetchWithTimeout env r = (.error ⟨fk, m⟩, r)) :=
  ⟨fun d m h1 h2 hret hd => fetchFrom_decode_at env r h1 h2 hret hd,
    fun fk m hret hlast => fetchFrom_all_caught env r hr hret hlast⟩

/-- C4 witness: attempt 1 fails with HTTP 500 (retried), attempt 2 is a
decode failure: the chain ends at attempt 2 of 3 with the decode error. -/
theorem c4_retry_policy_witness :
    fetchWithTimeout badJsonLate 3 =
      (.error ⟨.decode, "Unexpected token"⟩, 2) :=
  (c4_retry_policy_amended badJsonLate 3 (by decide)).1 2 "Unexpected token"
    (by decide) (by decide)
    (fun k h1 h2 => by
      have hk : k = 1 := by omega
      subst hk
      rfl) rfl

/-- C5 counterexample: two failing runs with different URLs and different
attempt counts return the IDENTICAL error value, so the error value carries
neither the failing URL nor the number of attempts made. -/
theorem c5_error_lacks_url_and_attempts :
    parallelCalls envHttp500 ["alpha"] ⟨none, some 2, none⟩ =
      .error "HTTP error! status: 500" ∧
    parallelCalls envHttp500 ["beta"] ⟨none, some 1, none⟩ =
      .error "HTTP error! status: 500" ∧
    ("alpha" : String) ≠ "beta" ∧
    (fetchOne envHttp500 2 "alpha").2 = 2 ∧
    (fetchOne envHttp500 1 "beta").2 = 1 := by
  have ha : fetchOne envHttp500 2 "alpha" =
      (.error ⟨.httpStatus, "HTTP error! status: 500"⟩, 2) :=
    @fetchFrom_all_caught (envHttp500 "alpha") 2 .httpStatus
      "HTTP error! status: 500" (by decide) (fun k h1 h2 => rfl) rfl
  have hbta : fetchOne envHttp500 1 "beta" =
      (.error ⟨.httpStatus, "HTTP error! status: 500"⟩, 1) :=
    @fetchFrom_all_caught (envHttp500 "beta") 1 .httpStatus
      "HTTP error! status: 500" (by decide) (fun k h1 h2 => by omega) rfl
  refine ⟨?_, ?_, by decide, by rw [ha], by rw [hbta]⟩
  · exact parallel_single_fail envHttp500 ⟨none, some 2, none⟩ "alpha"
      ⟨.httpStatus, "HTTP error! status: 500"⟩ (by decide)
      (congrArg Prod.fst ha)
  · exact parallel_single_fail envHttp500 ⟨none, some 1, none⟩ "beta"
      ⟨.httpStatus, "HTTP error! status: 500"⟩ (by decide)
      (congrArg Prod.fst hbta)

/-- C5 (amended): on a failing run the caller of `parallelCalls` receives
only the message string of the last underlying failure (re-thrown as a bare
`new Error(message)`); no partial data accompanies it, and neither the
failing URL nor the attempt count is part of the error value. -/
theorem c5_error_message_only (env : Env) (urls : List String)
    (opts : Options) (e : JsError)
    (he : (runParallel env (resolveOptions opts) urls).result = .error e) :
    parallelCalls env urls opts = .error e.message := by
  unfold parallelCalls
  simp only [he]

/-- C5 witness: a concrete failing run, through the theorem. -/
theorem c5_error_message_only_witness :
    ∃ e : JsError,
      (runParallel envHttp500 (resolveOptions ⟨none, some 2, none⟩)
        ["alpha"]).result = .error e ∧
      parallelCalls envHttp500 ["alpha"] ⟨none, some 2, none⟩ =
        .error e.message := by
  have hres : (runParallel envHttp500 (resolveOptions ⟨none, some 2, none⟩)
      ["alpha"]).result = .error ⟨.httpStatus, "HTTP error! status: 500"⟩ :=
    runParallel_single_fail envHttp500 (resolveOptions ⟨none, some 2, none⟩)
      "alpha" ⟨.httpStatus, "HTTP error! status: 500"⟩ (by decide)
      (congrArg Prod.fst
        (@fetchFrom_all_caught (envHttp500 "alpha") 2 .httpStatus
          "HTTP error! status: 500" (by decide) (fun k h1 h2 => rfl) rfl))
  exact ⟨⟨.httpStatus, "HTTP error! status: 500"⟩, hres,
    c5_error_message_only envHttp500 ["alpha"] ⟨none, some 2, none⟩
      ⟨.httpStatus, "HTTP error! status: 500"⟩ hres⟩

/-- C6 counterexample: no positivity validation exists — with `timeout = 0`
and `retries = 0` (non-positive) the call still runs, issues a fetch attempt
with that configuration and returns the fetch outcome, instead of rejecting
the configuration. -/
theorem c6_no_validation :
    resolveOptions ⟨some 0, some 0, some 1⟩ = ⟨0, 0, 1⟩ ∧
    parallelCalls envOk ["a"] ⟨some 0, some 0, some 1⟩ = .ok [⟨"a"⟩] ∧
    (fetchOne envOk 0 "a").2 = 1 := by
  refine ⟨rfl, ?_, ?_⟩
  · exact (parallel_ok envOk ["a"] ⟨some 0, some 0, some 1⟩ (fun u => ⟨u⟩)
      (by decide)
      (fun u _ => congrArg Prod.fst (@fetchFrom_success (envOk u) 0 1 ⟨u⟩ rfl))).2
  · exact congrArg Prod.snd (@fetchFrom_success (envOk "a") 0 1 ⟨"a"⟩ rfl)

/-- C6 (amended): every omitted field takes its documented default
(`timeout = 5000`, `retries = 3`, `batchSize = 5`) and supplied fields are
used as-is — no positivity validation is performed anywhere: `retries = 0`
still issues exactly one attempt. -/
theorem c6_defaults_no_validation :
    resolveOptions ⟨none, none, none⟩ = ⟨5000, 3, 5⟩ ∧
    (∀ t r2 b2, resolveOptions ⟨some t, some r2, some b2⟩ = ⟨t, r2, b2⟩) ∧
    (∀ env : UrlEnv, (fetchFrom env 0 1).2 = 1) := by
  refine ⟨rfl, fun t r2 b2 => rfl, ?_⟩
  intro env
  have h1 := fetchFrom_count_pos env 0 1
  have h2 := fetchFrom_count_le env 0 1
  omega

/-- C8 counterexample: on timeout the failure message is the runtime's abort
error message, passed through unchanged — the source never constructs the
string `request timed out`. -/
theorem c8_timeout_message :
    attemptResult (.timesOut "This operation was aborted") =
      .caughtFailure .timeout "This operation was aborted" ∧
    ("This operation was aborted" : String) ≠ "request timed out" :=
  ⟨rfl, by decide⟩

/-- C8 (amended): an attempt that times out is cancelled via the abort
signal and fails with kind Timeout carrying the runtime's abort message (not
the literal `request timed out`); on every exit path the attempt's timer
ends up not armed, with exactly one effective release — the second
`clearTimeout` on response paths is an idempotent no-op. -/
theorem c8_timer_amended (e : AttemptEvent) :
    (runTimer .armed (timerOps e)).1 ≠ .armed ∧
    (runTimer .armed (timerOps e)).2 = 1 ∧
    (∀ m, attemptResult (.timesOut m) = .caughtFailure .timeout m) := by
  refine ⟨?_, ?_, fun m => rfl⟩
  · cases e <;> simp [timerOps, runTimer, timerStep]
  · cases e <;> rfl

/-- C9: in every scheduler state reachable from the start of a run, the
number of concurrently outstanding fetch attempts never exceeds `batchSize`:
batches run one after another, a batch holds at most `batchSize` URLs, and a
URL's retry chain keeps at most one attempt in flight. -/
theorem c9_concurrency_bound (cfg : Config) (urls : List String)
    (s : SchedState)
    (h : Relation.ReflTransGen (SchedStep cfg urls) (.idle 0) s) :
    outstanding s ≤ cfg.batchSize := by
  induction h with
  | refl => exact Nat.zero_le _
  | tail h1 hstep ih =>
    cases hstep with
    | startBatch i hi =>
      have hlen : (batchSlice urls cfg.batchSize i).length ≤ cfg.batchSize := by
        rw [batchSlice, List.length_take]
        exact Nat.min_le_left _ _
      simpa [outstanding, countTrue_replicate] using hlen
    | settle i j pending hj =>
      have hle := countTrue_set_false_le pending j
      simp only [outstanding] at ih ⊢
      omega
    | batchOk i pending hall => exact Nat.zero_le _
    | batchFail i j pending hj =>
      have hle := countTrue_set_false_le pending j
      simp only [outstanding] at ih ⊢
      omega
    | settleFailed j pending hj =>
      have hle := countTrue_set_false_le pending j
      simp only [outstanding] at ih ⊢
      omega
    | finish i hi => exact Nat.zero_le _

/-- C9 witness: the state right after starting batch 0 of a one-URL run
with the default batch size. -/
theorem c9_concurrency_bound_witness :
    outstanding (.running 0 [true]) ≤ (5 : Nat) :=
  c9_concurrency_bound ⟨5000, 3, 5⟩ ["a"] _
    (Relation.ReflTransGen.single (SchedStep.startBatch 0 (by decide)))

end AsyncOps
